import Mathlib

/-!
Verification of the RAG-Playground repository's core decision logic.

Part 1: Corrective Confidence Router (CRAG), embedded from
`Corrective_RAG/Corrective__RAG.ipynb`:
`llm_based_factual_check`, `evaluator_agent`, `query_rewriter`,
`knowledge_refine`, `generator_agent`, `search_web`,
`algorithm_CRAG_inference`.

The LLM and the web-search engine are external collaborators; they are
modelled as oracle functions carried in an `Env`.  A prompt built by an
f-string in the source is modelled as a constructor carrying exactly the
data interpolated into that f-string; the surrounding literal text is
irrelevant to the routing logic and is not reproduced.

Similarity scores are rationals (the source holds Python floats coming
from the vector index; only their order comparisons matter to the router).

Python's `str.upper()` and `str.strip()` are modelled by the executable
`pyUpper` and `pyStrip` below (character-wise uppercasing, and dropping
leading and trailing whitespace).
-/

/-- Python `str.upper()`: uppercase every character. -/
def pyUpper (s : String) : String := String.mk (s.data.map Char.toUpper)

/-- Python `str.strip()`: drop leading and trailing whitespace. -/
def pyStrip (s : String) : String :=
  String.mk (((s.data.dropWhile Char.isWhitespace).reverse.dropWhile
    Char.isWhitespace).reverse)

/-- Prompts built by the notebook's f-strings; each constructor records the
data interpolated into the corresponding f-string of the source. -/
inductive Prompt where
  /-- `llm_based_factual_check` prompt with `web_context == ""`. -/
  | factCheck (query : String) (chunks : List String)
  /-- `llm_based_factual_check` prompt with a nonempty `web_context`. -/
  | factCheckWeb (query : String) (chunks : List String) (web : String)
  /-- `query_rewriter` prompt. -/
  | rewriteQ (query : String)
  /-- `knowledge_refine` prompt over the query and the source documents. -/
  | refineK (query : String) (docs : List String)
  /-- `generator_agent` prompt over the query and the assembled knowledge. -/
  | generate (query : String) (knowledge : String)
  deriving DecidableEq

/-- The external collaborators: `llm.invoke(prompt).content` and
`GoogleSerperAPIWrapper().run(query)`. -/
structure Env where
  llm : Prompt → String
  search : String → String

/-- `llm_based_factual_check(query, chunks, web_context="")`:
builds one of two prompts depending on whether `web_context` is empty and
returns `result.content.strip().upper()`. -/
def llm_based_factual_check (env : Env) (query : String) (chunks : List String)
    (web_context : String) : String :=
  if web_context = "" then
    pyUpper (pyStrip (env.llm (Prompt.factCheck query chunks)))
  else
    pyUpper (pyStrip (env.llm (Prompt.factCheckWeb query chunks web_context)))

/-- `query_rewriter(query)`: invokes the LLM, then takes
`response.content.strip()`, splits on newlines, takes the last line, removes
the literal `"Rewritten Web Search Query:"` and strips again. -/
def query_rewriter (env : Env) (query : String) : String :=
  pyStrip ((((pyStrip (env.llm (Prompt.rewriteQ query))).splitOn "\n").getLastD
    "").replace "Rewritten Web Search Query:" "")

/-- `search_web(inputs)`: delegates to the Serper web-search collaborator. -/
def search_web (env : Env) (inputs : String) : String :=
  env.search inputs

/-- `knowledge_refine(query, source_nodes, strip_size=2)`: builds the combined
documents from the retrieved nodes' texts, asks the LLM to strip-score and
recompose them, and returns `response.content.strip()`. -/
def knowledge_refine (env : Env) (query : String) (sourceTexts : List String) : String :=
  pyStrip (env.llm (Prompt.refineK query sourceTexts))

/-- `generator_agent(query, knowledge)`: invokes the LLM on the generation
prompt and returns `response.content.strip()`. -/
def generator_agent (env : Env) (query : String) (knowledge : String) : String :=
  pyStrip (env.llm (Prompt.generate query knowledge))

/-- Result of `evaluator_agent`, instrumented with the number of times the
LLM judge (`llm_based_factual_check`) was invoked. -/
structure EvalResult where
  scores : List ℚ
  verdict : String
  judgeCalls : Nat
  deriving DecidableEq, Repr

/-- `evaluator_agent(query, vector_index, top_k=5, correct_thresh=0.75,
incorrect_thresh=0.4)`.  The vector index is an external collaborator; the
similarity scores and texts of the retrieved nodes are taken as inputs.
Fast path: `all(score >= correct_thresh)` gives CORRECT, else
`all(score <= incorrect_thresh)` gives INCORRECT, with no judge call;
otherwise the judge is invoked, and on a first verdict of `"DONTKNOW"` the
query is rewritten, the web is searched, and the judge is re-invoked with
the web context, its verdict being returned as is. -/
def evaluator_agent (env : Env) (query : String) (texts : List String)
    (similarity_scores : List ℚ) (correct_thresh incorrect_thresh : ℚ) : EvalResult :=
  if similarity_scores.all (fun score => correct_thresh ≤ score) then
    ⟨similarity_scores, "CORRECT", 0⟩
  else if similarity_scores.all (fun score => score ≤ incorrect_thresh) then
    ⟨similarity_scores, "INCORRECT", 0⟩
  else
    let llm_verdict := llm_based_factual_check env query texts ""
    if llm_verdict = "DONTKNOW" then
      let rewritten_q := query_rewriter env query
      let web_context := search_web env rewritten_q
      let final_confidence := llm_based_factual_check env query texts web_context
      ⟨similarity_scores, final_confidence, 2⟩
    else
      ⟨similarity_scores, llm_verdict, 1⟩

/-- Default `correct_thresh` of `evaluator_agent`. -/
def correct_thresh_default : ℚ := 3/4

/-- Default `incorrect_thresh` of `evaluator_agent`. -/
def incorrect_thresh_default : ℚ := 2/5

/-- The knowledge `k` assembled by `algorithm_CRAG_inference(query)` from the
confidence verdict `c`: refined internal knowledge for CORRECT, the web
search result of the rewritten query for INCORRECT, their concatenation for
AMBIGUOUS, and the initial `k=""` when no branch matches. -/
def CRAGKnowledge (env : Env) (c : String) (query : String)
    (sourceTexts : List String) : String :=
  if c = "CORRECT" then
    knowledge_refine env query sourceTexts
  else if c = "INCORRECT" then
    search_web env (query_rewriter env query)
  else if c = "AMBIGUOUS" then
    knowledge_refine env query sourceTexts ++ search_web env (query_rewriter env query)
  else
    ""

/-- `algorithm_CRAG_inference(query)`: assembles the knowledge `k` from the
verdict `c` (a global in the notebook, here a parameter) and unconditionally
returns `generator_agent(query, k)`. -/
def algorithm_CRAG_inference (env : Env) (c : String) (query : String)
    (sourceTexts : List String) : String :=
  let k := CRAGKnowledge env c query sourceTexts
  generator_agent env query k

/-- A concrete environment for witnesses: the LLM echoes a fixed string and
the search engine another. -/
def envConst (ans web : String) : Env :=
  ⟨fun _ => ans, fun _ => web⟩

/-!
Part 2: Hypothetical-Embedding Re-ranker, embedded from
`HyQe_RAG/HyQe_RAG.ipynb` (`compute_final_scores`) and from the HyPE
notebook (`retrieve_top_chunks`).

Vectors are lists of reals (the source computes on NumPy float arrays; the
exact-real model keeps the algebraic structure of the computation).  One
caveat is modelled explicitly: NumPy division of a vector by a zero norm
does not yield 0 but NaN; since exact reals have no NaN, the predicate
`rerankDividesByZero` records precisely when the source's unguarded
divisions `query_vec /= np.linalg.norm(query_vec)` and
`hq_embs / np.linalg.norm(hq_embs, axis=1, keepdims=True)` divide by zero.
`cosine_similarity` models sklearn's implementation, whose internal row
normalization leaves zero-norm rows unchanged (its norms-of-zero are
replaced by 1), hence the guard in `sknormalize`.

Sorting: Python's `list.sort` is stable; `sort(reverse=True, key=...)` is a
stable descending sort, modelled by `List.mergeSort` with the reversed
comparison.  `Node.score` is mutable in the source (`node.score = ...`);
the embedding returns the updated copies in `scoredList`.
-/

/-- A retrieved node: `node_id`, `text`, mutable `score`. -/
structure Node where
  node_id : String
  text : String
  score : ℝ

/-- Componentwise dot product of two real vectors. -/
def dot : List ℝ → List ℝ → ℝ
  | a :: as, b :: bs => a * b + dot as bs
  | _, _ => 0

/-- `np.linalg.norm(v)`: the L2 norm. -/
noncomputable def vnorm (v : List ℝ) : ℝ := Real.sqrt (dot v v)

/-- Unguarded normalization `v / np.linalg.norm(v)`. -/
noncomputable def l2normalize (v : List ℝ) : List ℝ := v.map (fun x => x / vnorm v)

/-- sklearn's internal row normalization: zero-norm rows are left unchanged. -/
noncomputable def sknormalize (v : List ℝ) : List ℝ :=
  if vnorm v = 0 then v else l2normalize v

/-- `sklearn.metrics.pairwise.cosine_similarity` on two single rows. -/
noncomputable def cosine_similarity (a b : List ℝ) : ℝ :=
  dot (sknormalize a) (sknormalize b)

/-- `np.max` over a list (the source only applies it to nonempty lists). -/
noncomputable def maxList : List ℝ → ℝ
  | [] => 0
  | [a] => a
  | a :: b :: t => max a (maxList (b :: t))

/-- The `hypo_map` lookup built from `embedding_pairs`. -/
def hypoLookup (pairs : List (List ℝ × Node)) (id : String) : List (List ℝ) :=
  if id = "" then []
  else (pairs.filter (fun p => p.2.node_id == id)).map Prod.fst

/-- max sim of a node against its hypotheticals, 0 when it has none. -/
noncomputable def nodeMaxSim (pairs : List (List ℝ × Node)) (query_vec : List ℝ)
    (id : String) : ℝ :=
  let hq := hypoLookup pairs id
  if hq.isEmpty then 0
  else maxList (hq.map (fun h => cosine_similarity query_vec (l2normalize h)))

noncomputable def scoredList (nodes : List Node) (pairs : List (List ℝ × Node))
    (query_embedding : List ℝ) (lamda : ℝ) : List Node :=
  let query_vec := l2normalize query_embedding
  nodes.map (fun node =>
    { node with score := node.score + lamda * nodeMaxSim pairs query_vec node.node_id })

noncomputable def compute_final_scores (nodes : List Node)
    (pairs : List (List ℝ × Node)) (query_embedding : List ℝ) (lamda : ℝ) : List Node :=
  (scoredList nodes pairs query_embedding lamda).mergeSort
    (fun a b => decide (b.score ≤ a.score))

noncomputable def specCosine (a b : List ℝ) : ℝ := dot (l2normalize a) (l2normalize b)

noncomputable def specMaxSim (pairs : List (List ℝ × Node)) (qe : List ℝ)
    (id : String) : ℝ :=
  let hq := hypoLookup pairs id
  if hq.isEmpty then 0 else maxList (hq.map (fun h => specCosine qe h))

/-- Sites in `compute_final_scores` that divide by a norm: the query vector is
divided by `np.linalg.norm(query_vec)` unconditionally, and every hypothetical
vector of a node found in `hypo_map` is divided by its row norm.  This
predicate holds exactly when one of those divisions divides by zero. -/
def rerankDividesByZero (nodes : List Node) (pairs : List (List ℝ × Node))
    (qe : List ℝ) : Prop :=
  dot qe qe = 0 ∨ ∃ n ∈ nodes, ∃ h ∈ hypoLookup pairs n.node_id, dot h h = 0

/-- `similarities`: cosine similarity of the query against every vector of
`E`, paired with its node. -/
noncomputable def similaritiesOf (q_embed : List ℝ) (E : List (List ℝ × Node)) :
    List (ℝ × Node) :=
  E.map (fun p => (cosine_similarity q_embed p.1, p.2))

/-- `similarities.sort(reverse=True, key=lambda x: x[0])`: stable descending
sort by similarity. -/
noncomputable def sortedSimilarities (q_embed : List ℝ)
    (E : List (List ℝ × Node)) : List (ℝ × Node) :=
  (similaritiesOf q_embed E).mergeSort (fun a b => decide (b.1 ≤ a.1))

/-- The collection loop of `retrieve_top_chunks`: append each unseen node,
then break once `len(top_nodes) >= top_k`. -/
def topLoop (top_k : Nat) : List (ℝ × Node) → List String → List (ℝ × Node) →
    List (ℝ × Node)
  | [], _, acc => acc
  | (s, n) :: rest, seen, acc =>
    if n.node_id ∈ seen then
      if top_k ≤ acc.length then acc else topLoop top_k rest seen acc
    else
      let acc2 := acc ++ [(s, n)]
      if top_k ≤ acc2.length then acc2 else topLoop top_k rest (n.node_id :: seen) acc2

/-- `retrieve_top_chunks(q_embed, E, top_k=5)` from the HyPE notebook. -/
noncomputable def retrieve_top_chunks (q_embed : List ℝ)
    (E : List (List ℝ × Node)) (top_k : Nat) : List (ℝ × Node) :=
  topLoop top_k (sortedSimilarities q_embed E) [] []

/-- Modelled from the spec: deduplicate by `candidate_id`, keeping only the
first occurrence of each id. -/
def dedupByKey : List (ℝ × Node) → List String → List (ℝ × Node)
  | [], _ => []
  | (s, n) :: rest, seen =>
    if n.node_id ∈ seen then dedupByKey rest seen
    else (s, n) :: dedupByKey rest (n.node_id :: seen)

/-- The similarities contributed by the hypotheticals of one candidate id. -/
noncomputable def simsOf (q_embed : List ℝ) (E : List (List ℝ × Node))
    (id : String) : List ℝ :=
  (E.filter (fun p => p.2.node_id == id)).map (fun p => cosine_similarity q_embed p.1)

/-- C2: for every list of similarity scores, the router's fast path returns
CORRECT with zero judge calls when every score is at least `correct_thresh`,
otherwise INCORRECT with zero judge calls when every score is at most
`incorrect_thresh`, and invokes the LLM judge only when neither
all-quantified condition holds. -/
theorem C2_router_fast_path (env : Env) (query : String) (texts : List String)
    (scores : List ℚ) (ct it : ℚ) :
    ((∀ s ∈ scores, ct ≤ s) →
       evaluator_agent env query texts scores ct it = ⟨scores, "CORRECT", 0⟩)
    ∧ ((¬ ∀ s ∈ scores, ct ≤ s) → (∀ s ∈ scores, s ≤ it) →
       evaluator_agent env query texts scores ct it = ⟨scores, "INCORRECT", 0⟩)
    ∧ ((¬ ∀ s ∈ scores, ct ≤ s) → (¬ ∀ s ∈ scores, s ≤ it) →
       1 ≤ (evaluator_agent env query texts scores ct it).judgeCalls) := by
  refine ⟨fun h => ?_, fun h1 h2 => ?_, fun h1 h2 => ?_⟩
  · have hb : scores.all (fun score => ct ≤ score) = true := by
      simp only [List.all_eq_true, decide_eq_true_eq]
      exact h
    simp [evaluator_agent, hb]
  · have hb1 : scores.all (fun score => ct ≤ score) = false := by
      simp only [← Bool.not_eq_true, List.all_eq_true, decide_eq_true_eq]
      exact h1
    have hb2 : scores.all (fun score => score ≤ it) = true := by
      simp only [List.all_eq_true, decide_eq_true_eq]
      exact h2
    simp [evaluator_agent, hb1, hb2]
  · have hb1 : scores.all (fun score => ct ≤ score) = false := by
      simp only [← Bool.not_eq_true, List.all_eq_true, decide_eq_true_eq]
      exact h1
    have hb2 : scores.all (fun score => score ≤ it) = false := by
      simp only [← Bool.not_eq_true, List.all_eq_true, decide_eq_true_eq]
      exact h2
    simp only [evaluator_agent, hb1, hb2, Bool.false_eq_true, if_false]
    split <;> simp

/-- Witness for C2: scores `[0.8, 0.9, 0.95]` with the default thresholds give
CORRECT without any judge call. -/
theorem C2_router_fast_path_witness :
    (∀ s ∈ [(4:ℚ)/5, 9/10, 19/20], correct_thresh_default ≤ s)
    ∧ evaluator_agent (envConst "JUDGE" "WEB") "q" [] [(4:ℚ)/5, 9/10, 19/20]
        correct_thresh_default incorrect_thresh_default =
      ⟨[(4:ℚ)/5, 9/10, 19/20], "CORRECT", 0⟩ :=
  ⟨by norm_num [correct_thresh_default],
   (C2_router_fast_path (envConst "JUDGE" "WEB") "q" []
     [(4:ℚ)/5, 9/10, 19/20] correct_thresh_default incorrect_thresh_default).1
     (by norm_num [correct_thresh_default])⟩

/-- C10: an empty list of similarity scores takes the CORRECT fast path with
zero judge calls, because `all` is vacuously true over an empty list and the
CORRECT branch is tested first. -/
theorem C10_empty_scores_correct (env : Env) (query : String)
    (texts : List String) (ct it : ℚ) :
    evaluator_agent env query texts [] ct it = ⟨[], "CORRECT", 0⟩ := by
  simp [evaluator_agent]

/-- C4 counterexample: with mixed scores and a judge answering `" maybe so "`,
the router returns the verdict `"MAYBE SO"` — a token outside the expected
verdict set — instead of failing with a `VerdictParseError` (no such error
exists anywhere in the code). -/
theorem C4_counterexample :
    (evaluator_agent (envConst " maybe so " "w") "q" [] [(1:ℚ)/2]
        correct_thresh_default incorrect_thresh_default).verdict = "MAYBE SO"
    ∧ "MAYBE SO" ∉ ["CORRECT", "INCORRECT", "AMBIGUOUS", "DONTKNOW", "UNKNOWN"] := by
  constructor
  · have hlt1 : ¬ (correct_thresh_default ≤ (1:ℚ)/2) := by
      norm_num [correct_thresh_default]
    have hlt2 : ¬ ((1:ℚ)/2 ≤ incorrect_thresh_default) := by
      norm_num [incorrect_thresh_default]
    have hj : llm_based_factual_check (envConst " maybe so " "w") "q" [] "" =
        "MAYBE SO" := by decide
    simp only [evaluator_agent, hj]
    norm_num [correct_thresh_default, incorrect_thresh_default]
    simp
  · decide

/-- C4 amended: the router performs no verdict validation and cannot fail:
when neither fast-path condition holds, the first judge output (stripped and
uppercased), if different from `"DONTKNOW"`, is returned verbatim as the
verdict, whatever token it is. -/
theorem C4_amended_verdict_passthrough (env : Env) (query : String)
    (texts : List String) (scores : List ℚ) (ct it : ℚ)
    (h1 : ¬ ∀ s ∈ scores, ct ≤ s) (h2 : ¬ ∀ s ∈ scores, s ≤ it)
    (h3 : llm_based_factual_check env query texts "" ≠ "DONTKNOW") :
    evaluator_agent env query texts scores ct it =
      ⟨scores, llm_based_factual_check env query texts "", 1⟩ := by
  have hb1 : scores.all (fun score => ct ≤ score) = false := by
    simp only [← Bool.not_eq_true, List.all_eq_true, decide_eq_true_eq]
    exact h1
  have hb2 : scores.all (fun score => score ≤ it) = false := by
    simp only [← Bool.not_eq_true, List.all_eq_true, decide_eq_true_eq]
    exact h2
  simp [evaluator_agent, hb1, hb2, h3]

/-- Witness for the amended C4: the judge answer `"surely yes"` is passed
through as the verdict `"SURELY YES"`. -/
theorem C4_amended_verdict_passthrough_witness :
    (¬ ∀ s ∈ [(1:ℚ)/2], correct_thresh_default ≤ s)
    ∧ (¬ ∀ s ∈ [(1:ℚ)/2], s ≤ incorrect_thresh_default)
    ∧ llm_based_factual_check (envConst "surely yes" "w") "q" [] "" ≠ "DONTKNOW"
    ∧ evaluator_agent (envConst "surely yes" "w") "q" [] [(1:ℚ)/2]
        correct_thresh_default incorrect_thresh_default =
      ⟨[(1:ℚ)/2], llm_based_factual_check (envConst "surely yes" "w") "q" [] "", 1⟩ :=
  ⟨by norm_num [correct_thresh_default], by norm_num [incorrect_thresh_default],
   by decide,
   C4_amended_verdict_passthrough (envConst "surely yes" "w") "q" [] [(1:ℚ)/2]
     correct_thresh_default incorrect_thresh_default
     (by norm_num [correct_thresh_default])
     (by norm_num [incorrect_thresh_default]) (by decide)⟩

/-- C5 counterexample: when the judge answers `"DONTKNOW"` both times, the
router returns the verdict `"DONTKNOW"` itself, which then drives the
terminal knowledge assembly (matching no branch, so knowledge is empty and
generation still runs) — so the UNKNOWN verdict does reach the terminal
action. -/
theorem C5_counterexample :
    evaluator_agent (envConst "DONTKNOW" "w") "q" [] [(1:ℚ)/2]
        correct_thresh_default incorrect_thresh_default = ⟨[(1:ℚ)/2], "DONTKNOW", 2⟩
    ∧ CRAGKnowledge (envConst "DONTKNOW" "w") "DONTKNOW" "q" [] = ""
    ∧ algorithm_CRAG_inference (envConst "DONTKNOW" "w") "DONTKNOW" "q" [] =
        generator_agent (envConst "DONTKNOW" "w") "q" "" := by
  refine ⟨?_, by decide, rfl⟩
  have hlt1 : ¬ (correct_thresh_default ≤ (1:ℚ)/2) := by
    norm_num [correct_thresh_default]
  have hlt2 : ¬ ((1:ℚ)/2 ≤ incorrect_thresh_default) := by
    norm_num [incorrect_thresh_default]
  have hj1 : llm_based_factual_check (envConst "DONTKNOW" "w") "q" [] "" =
      "DONTKNOW" := by decide
  have hs : search_web (envConst "DONTKNOW" "w")
      (query_rewriter (envConst "DONTKNOW" "w") "q") = "w" := rfl
  have hj2 : llm_based_factual_check (envConst "DONTKNOW" "w") "q" [] "w" =
      "DONTKNOW" := by decide
  simp only [evaluator_agent, hj1, hs, hj2]
  norm_num [correct_thresh_default, incorrect_thresh_default]

/-- C5 amended: when the first judge call returns `"DONTKNOW"`, the router
rewrites the query, fetches external web context, and re-invokes the judge
with both internal and external context; the second verdict is returned
without validation (so it is not guaranteed to be among CORRECT, INCORRECT,
AMBIGUOUS, and a repeated `"DONTKNOW"` reaches the terminal assembly). -/
theorem C5_amended_reescalation (env : Env) (query : String)
    (texts : List String) (scores : List ℚ) (ct it : ℚ)
    (h1 : ¬ ∀ s ∈ scores, ct ≤ s) (h2 : ¬ ∀ s ∈ scores, s ≤ it)
    (h3 : llm_based_factual_check env query texts "" = "DONTKNOW") :
    evaluator_agent env query texts scores ct it =
      ⟨scores,
       llm_based_factual_check env query texts
         (search_web env (query_rewriter env query)), 2⟩ := by
  have hb1 : scores.all (fun score => ct ≤ score) = false := by
    simp only [← Bool.not_eq_true, List.all_eq_true, decide_eq_true_eq]
    exact h1
  have hb2 : scores.all (fun score => score ≤ it) = false := by
    simp only [← Bool.not_eq_true, List.all_eq_true, decide_eq_true_eq]
    exact h2
  simp [evaluator_agent, hb1, hb2, h3]

/-- Witness for the amended C5 at a concrete environment whose judge always
answers `"DONTKNOW"`. -/
theorem C5_amended_reescalation_witness :
    (¬ ∀ s ∈ [(1:ℚ)/2], correct_thresh_default ≤ s)
    ∧ (¬ ∀ s ∈ [(1:ℚ)/2], s ≤ incorrect_thresh_default)
    ∧ llm_based_factual_check (envConst "DONTKNOW" "web") "q" [] "" = "DONTKNOW"
    ∧ evaluator_agent (envConst "DONTKNOW" "web") "q" [] [(1:ℚ)/2]
        correct_thresh_default incorrect_thresh_default =
      ⟨[(1:ℚ)/2],
       llm_based_factual_check (envConst "DONTKNOW" "web") "q" []
         (search_web (envConst "DONTKNOW" "web")
           (query_rewriter (envConst "DONTKNOW" "web") "q")), 2⟩ :=
  ⟨by norm_num [correct_thresh_default], by norm_num [incorrect_thresh_default],
   by decide,
   C5_amended_reescalation (envConst "DONTKNOW" "web") "q" [] [(1:ℚ)/2]
     correct_thresh_default incorrect_thresh_default
     (by norm_num [correct_thresh_default])
     (by norm_num [incorrect_thresh_default]) (by decide)⟩

/-- C6: the knowledge passed to generation is exactly the refined internal
candidates for CORRECT, the external search text of the rewritten query
verbatim for INCORRECT, and their concatenation for AMBIGUOUS; the generator
always receives exactly the assembled knowledge. -/
theorem C6_assembly_mapping (env : Env) (query : String) (texts : List String) :
    CRAGKnowledge env "CORRECT" query texts = knowledge_refine env query texts
    ∧ CRAGKnowledge env "INCORRECT" query texts =
        search_web env (query_rewriter env query)
    ∧ CRAGKnowledge env "AMBIGUOUS" query texts =
        knowledge_refine env query texts ++ search_web env (query_rewriter env query)
    ∧ ∀ c, algorithm_CRAG_inference env c query texts =
        generator_agent env query (CRAGKnowledge env c query texts) := by
  refine ⟨rfl, by simp [CRAGKnowledge], by simp [CRAGKnowledge], fun c => rfl⟩

/-- C8 counterexample: with a verdict matching none of the three terminal
kinds, the knowledge is the empty string and the generator is still invoked
with it, producing an answer — the evaluation does not fail. -/
theorem C8_counterexample :
    CRAGKnowledge (envConst "ANSWER" "web") "DONTKNOW" "q" ["t"] = ""
    ∧ algorithm_CRAG_inference (envConst "ANSWER" "web") "DONTKNOW" "q" ["t"] =
        generator_agent (envConst "ANSWER" "web") "q" ""
    ∧ generator_agent (envConst "ANSWER" "web") "q" "" = "ANSWER" := by
  refine ⟨by decide, rfl, by decide⟩

/-- C8 amended: knowledge assembly never fails: for any verdict outside
CORRECT, INCORRECT and AMBIGUOUS the assembled knowledge is the empty string
and the generator is invoked with it. -/
theorem C8_amended_generation_with_empty (env : Env) (c query : String)
    (texts : List String)
    (h : c ∉ ["CORRECT", "INCORRECT", "AMBIGUOUS"]) :
    CRAGKnowledge env c query texts = ""
    ∧ algorithm_CRAG_inference env c query texts = generator_agent env query "" := by
  simp only [List.mem_cons, List.not_mem_nil, or_false, not_or] at h
  obtain ⟨hc, hi, ha⟩ := h
  have hk : CRAGKnowledge env c query texts = "" := by
    simp [CRAGKnowledge, hc, hi, ha]
  exact ⟨hk, by simp [algorithm_CRAG_inference, hk]⟩

/-- Witness for the amended C8 at the concrete verdict `"DONTKNOW"`. -/
theorem C8_amended_generation_with_empty_witness :
    ("DONTKNOW" ∉ ["CORRECT", "INCORRECT", "AMBIGUOUS"])
    ∧ CRAGKnowledge (envConst "A" "B") "DONTKNOW" "qq" [] = ""
    ∧ algorithm_CRAG_inference (envConst "A" "B") "DONTKNOW" "qq" [] =
        generator_agent (envConst "A" "B") "qq" "" :=
  ⟨by decide,
   C8_amended_generation_with_empty (envConst "A" "B") "DONTKNOW" "qq" [] (by decide)⟩


/-- `maxList` of a nonempty list is an element of it. -/
theorem maxList_mem : ∀ {l : List ℝ}, l ≠ [] → maxList l ∈ l
  | [], h => absurd rfl h
  | [a], _ => by simp [maxList]
  | a :: b :: t, _ => by
    simp only [maxList]
    rcases le_total a (maxList (b :: t)) with h | h
    · rw [max_eq_right h]
      exact List.mem_cons_of_mem _ (maxList_mem (by simp))
    · rw [max_eq_left h]
      exact List.mem_cons_self _ _

/-- `maxList` bounds every element of the list. -/
theorem maxList_le : ∀ {l : List ℝ} {x : ℝ}, x ∈ l → x ≤ maxList l
  | [], x, h => absurd h (List.not_mem_nil x)
  | [a], x, h => by
    simp only [List.mem_singleton] at h
    subst h
    simp [maxList]
  | a :: b :: t, x, h => by
    simp only [maxList]
    rcases List.mem_cons.mp h with rfl | h2
    · exact le_max_left _ _
    · exact le_trans (maxList_le h2) (le_max_right _ _)

theorem dot_self_nonneg (v : List ℝ) : 0 ≤ dot v v := by
  induction v with
  | nil => simp [dot]
  | cons a as ih => simpa [dot] using add_nonneg (mul_self_nonneg a) ih

theorem dot_map_div (c d : ℝ) : ∀ (v w : List ℝ),
    dot (v.map (fun x => x / c)) (w.map (fun x => x / d)) = dot v w / (c * d)
  | [], w => by simp [dot]
  | a :: as, [] => by simp [dot]
  | a :: as, b :: bs => by
    simp only [List.map_cons, dot, dot_map_div c d as bs]
    rw [div_mul_div_comm, add_div]

theorem vnorm_mul_self (v : List ℝ) : vnorm v * vnorm v = dot v v :=
  Real.mul_self_sqrt (dot_self_nonneg v)

theorem vnorm_eq_zero_iff (v : List ℝ) : vnorm v = 0 ↔ dot v v = 0 :=
  Real.sqrt_eq_zero (dot_self_nonneg v)

theorem dot_l2normalize_self (v : List ℝ) (h : dot v v ≠ 0) :
    dot (l2normalize v) (l2normalize v) = 1 := by
  unfold l2normalize
  rw [dot_map_div, vnorm_mul_self, div_self h]

theorem vnorm_l2normalize (v : List ℝ) (h : dot v v ≠ 0) :
    vnorm (l2normalize v) = 1 := by
  show Real.sqrt (dot (l2normalize v) (l2normalize v)) = 1
  rw [dot_l2normalize_self v h, Real.sqrt_one]

theorem l2normalize_idem (v : List ℝ) (h : dot v v ≠ 0) :
    l2normalize (l2normalize v) = l2normalize v := by
  show (l2normalize v).map (fun x => x / vnorm (l2normalize v)) = l2normalize v
  rw [vnorm_l2normalize v h]
  simp

theorem cosine_similarity_normalized (a b : List ℝ) (ha : dot a a ≠ 0)
    (hb : dot b b ≠ 0) :
    cosine_similarity (l2normalize a) (l2normalize b) = specCosine a b := by
  unfold cosine_similarity sknormalize specCosine
  rw [if_neg (by rw [vnorm_l2normalize a ha]; norm_num),
    if_neg (by rw [vnorm_l2normalize b hb]; norm_num),
    l2normalize_idem a ha, l2normalize_idem b hb]

theorem hypoLookup_mem {pairs : List (List ℝ × Node)} {id : String} {h : List ℝ}
    (hm : h ∈ hypoLookup pairs id) : ∃ p ∈ pairs, p.1 = h := by
  unfold hypoLookup at hm
  split at hm
  · simp at hm
  · obtain ⟨p, hp, rfl⟩ := List.mem_map.mp hm
    exact ⟨p, (List.mem_filter.mp hp).1, rfl⟩

theorem nodeMaxSim_eq_spec (pairs : List (List ℝ × Node)) (qe : List ℝ) (id : String)
    (hq : dot qe qe ≠ 0) (hp : ∀ p ∈ pairs, dot p.1 p.1 ≠ 0) :
    nodeMaxSim pairs (l2normalize qe) id = specMaxSim pairs qe id := by
  have hmap : (hypoLookup pairs id).map
      (fun h => cosine_similarity (l2normalize qe) (l2normalize h)) =
      (hypoLookup pairs id).map (fun h => specCosine qe h) := by
    apply List.map_congr_left
    intro h hm
    obtain ⟨p, hpm, rfl⟩ := hypoLookup_mem hm
    exact cosine_similarity_normalized qe p.1 hq (hp p hpm)
  unfold nodeMaxSim specMaxSim
  simp only [hmap]

theorem nodeLE_trans (a b c : Node) (hab : decide (b.score ≤ a.score) = true)
    (hbc : decide (c.score ≤ b.score) = true) : decide (c.score ≤ a.score) = true := by
  simp only [decide_eq_true_eq] at hab hbc ⊢
  exact le_trans hbc hab

theorem nodeLE_total (a b : Node) :
    (decide (b.score ≤ a.score) || decide (a.score ≤ b.score)) = true := by
  simp only [Bool.or_eq_true, decide_eq_true_eq]
  exact le_total b.score a.score

/-- C1: for every candidate in the input, `compute_final_scores` assigns
`final_score = base_score + lambda * max_sim`, where `max_sim` is the
maximum cosine similarity (dot product of the L2-normalized query vector
and the L2-normalized hypothetical vector) over `hypo_index[c.id]`, and 0
when the candidate has no entry there; stated for normalizable inputs
(nonzero norms, see C7 for the zero-norm case), as a permutation identity
with the specification-side scoring map. -/
theorem C1_rerank_score_formula (nodes : List Node) (pairs : List (List ℝ × Node))
    (qe : List ℝ) (lamda : ℝ) (hq : dot qe qe ≠ 0)
    (hp : ∀ p ∈ pairs, dot p.1 p.1 ≠ 0) :
    (compute_final_scores nodes pairs qe lamda).Perm
      (nodes.map (fun n =>
        { n with score := n.score + lamda * specMaxSim pairs qe n.node_id })) := by
  have hsl : scoredList nodes pairs qe lamda =
      nodes.map (fun n =>
        { n with score := n.score + lamda * specMaxSim pairs qe n.node_id }) := by
    unfold scoredList
    apply List.map_congr_left
    intro n _
    rw [nodeMaxSim_eq_spec pairs qe n.node_id hq hp]
  unfold compute_final_scores
  rw [hsl]
  exact List.mergeSort_perm _ _

/-- Witness for C1 at a one-candidate input with a unit query vector. -/
theorem C1_rerank_score_formula_witness :
    (dot [(1:ℝ), 0] [(1:ℝ), 0] ≠ 0)
    ∧ (∀ p ∈ [([(1:ℝ), 0], (⟨"A", "tA", 1⟩ : Node))], dot p.1 p.1 ≠ 0)
    ∧ (compute_final_scores [(⟨"A", "tA", 1⟩ : Node)]
        [([(1:ℝ), 0], (⟨"A", "tA", 1⟩ : Node))] [(1:ℝ), 0] (3/4)).Perm
      ([(⟨"A", "tA", 1⟩ : Node)].map (fun n =>
        { n with score := n.score + (3:ℝ)/4 *
            specMaxSim [([(1:ℝ), 0], (⟨"A", "tA", 1⟩ : Node))] [(1:ℝ), 0] n.node_id })) :=
  ⟨by norm_num [dot], by norm_num [dot],
   C1_rerank_score_formula _ _ _ _ (by norm_num [dot]) (by norm_num [dot])⟩

/-- C3: `compute_final_scores` returns a permutation of its input (same
ids, same count — nothing created or dropped), sorted descending by final
score, candidates of equal final score keeping their original (scored)
input order, and an empty input yields an empty output. -/
theorem C3_rerank_permutation_stable_sort (nodes : List Node)
    (pairs : List (List ℝ × Node)) (qe : List ℝ) (lamda : ℝ) :
    ((compute_final_scores nodes pairs qe lamda).map Node.node_id).Perm
        (nodes.map Node.node_id)
    ∧ (compute_final_scores nodes pairs qe lamda).length = nodes.length
    ∧ (compute_final_scores nodes pairs qe lamda).Pairwise
        (fun a b => b.score ≤ a.score)
    ∧ (∀ a b : Node, List.Sublist [a, b] (scoredList nodes pairs qe lamda) →
        a.score = b.score → List.Sublist [a, b] (compute_final_scores nodes pairs qe lamda))
    ∧ (nodes = [] → compute_final_scores nodes pairs qe lamda = []) := by
  have hperm : (compute_final_scores nodes pairs qe lamda).Perm
      (scoredList nodes pairs qe lamda) := List.mergeSort_perm _ _
  have hids : (scoredList nodes pairs qe lamda).map Node.node_id =
      nodes.map Node.node_id := by
    unfold scoredList
    rw [List.map_map]
    rfl
  refine ⟨?_, ?_, ?_, ?_, ?_⟩
  · rw [← hids]
    exact hperm.map Node.node_id
  · rw [hperm.length_eq]
    unfold scoredList
    simp
  · have hs := List.sorted_mergeSort nodeLE_trans nodeLE_total
      (scoredList nodes pairs qe lamda)
    exact hs.imp (fun h => of_decide_eq_true h)
  · intro a b hsub heq
    exact List.pair_sublist_mergeSort nodeLE_trans nodeLE_total
      (decide_eq_true (le_of_eq heq.symm)) hsub
  · intro h
    subst h
    simp [compute_final_scores, scoredList]

/-- Witness for C3: two equal-scored candidates keep their input order in
the output. -/
theorem C3_rerank_permutation_stable_sort_witness :
    (List.Sublist [(⟨"A", "tA", (1:ℝ)⟩ : Node), ⟨"B", "tB", (1:ℝ)⟩]
        (scoredList [(⟨"A", "tA", (1:ℝ)⟩ : Node), ⟨"B", "tB", (1:ℝ)⟩] [] [(1:ℝ), 0] 0))
    ∧ ((1:ℝ) = (1:ℝ))
    ∧ (List.Sublist [(⟨"A", "tA", (1:ℝ)⟩ : Node), ⟨"B", "tB", (1:ℝ)⟩]
        (compute_final_scores [(⟨"A", "tA", (1:ℝ)⟩ : Node), ⟨"B", "tB", (1:ℝ)⟩]
          [] [(1:ℝ), 0] 0)) := by
  have hsub : List.Sublist [(⟨"A", "tA", (1:ℝ)⟩ : Node), ⟨"B", "tB", (1:ℝ)⟩]
      (scoredList [(⟨"A", "tA", (1:ℝ)⟩ : Node), ⟨"B", "tB", (1:ℝ)⟩] [] [(1:ℝ), 0] 0) := by
    have : scoredList [(⟨"A", "tA", (1:ℝ)⟩ : Node), ⟨"B", "tB", (1:ℝ)⟩] [] [(1:ℝ), 0] 0 =
        [(⟨"A", "tA", (1:ℝ)⟩ : Node), ⟨"B", "tB", (1:ℝ)⟩] := by
      simp [scoredList, nodeMaxSim, hypoLookup]
    rw [this]
  exact ⟨hsub, rfl,
    (C3_rerank_permutation_stable_sort
      [(⟨"A", "tA", (1:ℝ)⟩ : Node), ⟨"B", "tB", (1:ℝ)⟩] [] [(1:ℝ), 0] 0).2.2.2.1
      _ _ hsub rfl⟩

/-- C7 counterexample: on a zero query vector the source's unguarded
`query_vec /= np.linalg.norm(query_vec)` divides by zero (in NumPy the
scores become NaN, not 0), refuting "no division by zero ever occurs". -/
theorem C7_counterexample :
    rerankDividesByZero [⟨"A", "tA", 1⟩] [] [(0:ℝ), 0] :=
  Or.inl (by norm_num [dot])

/-- C7 amended: vectors are explicitly normalized, but with no zero-norm
guard; no division by zero occurs only when the query and all looked-up
hypothetical vectors have nonzero norm. -/
theorem C7_amended_no_divide_by_zero (nodes : List Node)
    (pairs : List (List ℝ × Node)) (qe : List ℝ)
    (hq : dot qe qe ≠ 0) (hp : ∀ p ∈ pairs, dot p.1 p.1 ≠ 0) :
    ¬ rerankDividesByZero nodes pairs qe := by
  rintro (h | ⟨n, hn, h, hm, h0⟩)
  · exact hq h
  · obtain ⟨p, hpm, rfl⟩ := hypoLookup_mem hm
    exact hp p hpm h0

/-- Witness for the amended C7 at concrete nonzero-norm vectors. -/
theorem C7_amended_no_divide_by_zero_witness :
    (dot [(1:ℝ), 0] [(1:ℝ), 0] ≠ 0)
    ∧ (∀ p ∈ [([(0:ℝ), 1], (⟨"A", "tA", 1⟩ : Node))], dot p.1 p.1 ≠ 0)
    ∧ ¬ rerankDividesByZero [(⟨"A", "tA", 1⟩ : Node)]
        [([(0:ℝ), 1], (⟨"A", "tA", 1⟩ : Node))] [(1:ℝ), 0] :=
  ⟨by norm_num [dot], by norm_num [dot],
   C7_amended_no_divide_by_zero _ _ _ (by norm_num [dot]) (by norm_num [dot])⟩

theorem simLE_trans (a b c : ℝ × Node) (hab : decide (b.1 ≤ a.1) = true)
    (hbc : decide (c.1 ≤ b.1) = true) : decide (c.1 ≤ a.1) = true := by
  simp only [decide_eq_true_eq] at hab hbc ⊢
  exact le_trans hbc hab

theorem simLE_total (a b : ℝ × Node) :
    (decide (b.1 ≤ a.1) || decide (a.1 ≤ b.1)) = true := by
  simp only [Bool.or_eq_true, decide_eq_true_eq]
  exact le_total b.1 a.1

theorem topLoop_eq_take : ∀ (l : List (ℝ × Node)) (seen : List String)
    (acc : List (ℝ × Node)) (k : Nat), acc.length < k →
    topLoop k l seen acc = acc ++ (dedupByKey l seen).take (k - acc.length)
  | [], seen, acc, k, _ => by simp [topLoop, dedupByKey]
  | (s, n) :: rest, seen, acc, k, hlt => by
    by_cases hmem : n.node_id ∈ seen
    · simp only [topLoop, dedupByKey, if_pos hmem]
      rw [if_neg (by omega)]
      exact topLoop_eq_take rest seen acc k hlt
    · simp only [topLoop, dedupByKey, if_neg hmem]
      by_cases hk : k ≤ (acc ++ [(s, n)]).length
      · rw [if_pos hk]
        have hkl : k - acc.length = 1 := by
          simp only [List.length_append, List.length_cons, List.length_nil] at hk
          omega
        rw [hkl]
        simp
      · rw [if_neg hk]
        have h2 : (acc ++ [(s, n)]).length < k := by omega
        rw [topLoop_eq_take rest (n.node_id :: seen) (acc ++ [(s, n)]) k h2]
        have h3 : k - acc.length = (k - (acc ++ [(s, n)]).length) + 1 := by
          simp only [List.length_append, List.length_cons, List.length_nil]
          omega
        rw [h3, List.take_succ_cons]
        simp

theorem dedupByKey_sublist : ∀ (l : List (ℝ × Node)) (seen : List String),
    List.Sublist (dedupByKey l seen) l
  | [], _ => List.Sublist.refl _
  | (s, n) :: rest, seen => by
    simp only [dedupByKey]
    by_cases hmem : n.node_id ∈ seen
    · rw [if_pos hmem]
      exact (dedupByKey_sublist rest seen).cons _
    · rw [if_neg hmem]
      exact (dedupByKey_sublist rest _).cons₂ _

theorem dedupByKey_mem_not_seen : ∀ {l : List (ℝ × Node)} {seen : List String}
    {p : ℝ × Node}, p ∈ dedupByKey l seen → p.2.node_id ∉ seen
  | [], seen, p => by simp [dedupByKey]
  | (s, n) :: rest, seen, p => by
    simp only [dedupByKey]
    by_cases hmem : n.node_id ∈ seen
    · rw [if_pos hmem]
      exact fun hp => dedupByKey_mem_not_seen hp
    · rw [if_neg hmem]
      intro hp
      rcases List.mem_cons.mp hp with h | h
      · subst h
        exact hmem
      · have h2 := dedupByKey_mem_not_seen h
        exact fun hs => h2 (List.mem_cons_of_mem _ hs)

theorem dedupByKey_ids_nodup : ∀ (l : List (ℝ × Node)) (seen : List String),
    ((dedupByKey l seen).map (fun p => p.2.node_id)).Nodup
  | [], _ => by simp [dedupByKey]
  | (s, n) :: rest, seen => by
    simp only [dedupByKey]
    by_cases hmem : n.node_id ∈ seen
    · rw [if_pos hmem]
      exact dedupByKey_ids_nodup rest seen
    · rw [if_neg hmem]
      simp only [List.map_cons, List.nodup_cons]
      refine ⟨?_, dedupByKey_ids_nodup rest _⟩
      intro hmm
      obtain ⟨p, hp, he⟩ := List.mem_map.mp hmm
      have h2 := dedupByKey_mem_not_seen hp
      rw [he] at h2
      exact h2 (List.mem_cons_self _ _)

theorem dedupByKey_first_occurrence : ∀ {l : List (ℝ × Node)} {seen : List String}
    {p : ℝ × Node}, p ∈ dedupByKey l seen →
    ∃ l1 l2, l = l1 ++ p :: l2 ∧ ∀ e ∈ l1, e.2.node_id ≠ p.2.node_id
  | [], seen, p => by simp [dedupByKey]
  | (s, n) :: rest, seen, p => by
    simp only [dedupByKey]
    by_cases hmem : n.node_id ∈ seen
    · rw [if_pos hmem]
      intro hp
      obtain ⟨l1, l2, hsp, hne⟩ := dedupByKey_first_occurrence hp
      subst hsp
      refine ⟨(s, n) :: l1, l2, rfl, ?_⟩
      intro e he
      rcases List.mem_cons.mp he with rfl | he2
      · have hns := dedupByKey_mem_not_seen hp
        intro heq
        exact hns (heq ▸ hmem)
      · exact hne e he2
    · rw [if_neg hmem]
      intro hp
      rcases List.mem_cons.mp hp with rfl | hp2
      · exact ⟨[], rest, rfl, by simp⟩
      · obtain ⟨l1, l2, hsp, hne⟩ := dedupByKey_first_occurrence hp2
        subst hsp
        refine ⟨(s, n) :: l1, l2, rfl, ?_⟩
        intro e he
        rcases List.mem_cons.mp he with rfl | he2
        · have hns := dedupByKey_mem_not_seen hp2
          intro heq
          exact hns (heq ▸ List.mem_cons_self _ _)
        · exact hne e he2

theorem simsOf_eq (q : List ℝ) (E : List (List ℝ × Node)) (id : String) :
    simsOf q E id =
      ((similaritiesOf q E).filter (fun e => e.2.node_id == id)).map
        (fun e => e.1) := by
  unfold simsOf similaritiesOf
  rw [List.filter_map, List.map_map]
  rfl

/-- C9 amended: for `top_k ≥ 1`, `retrieve_top_chunks` computes the cosine
similarity of the query against every pool vector, sorts descending,
deduplicates by node id keeping the first (hence highest-similarity)
occurrence, and returns the first `top_k` unique entries; each returned
entry's similarity is that of its best-matching hypothetical.  (At
`top_k = 0` the source still returns one entry, see the counterexample.) -/
theorem C9_amended_top_chunks (q_embed : List ℝ) (E : List (List ℝ × Node))
    (top_k : Nat) (hk : 1 ≤ top_k) :
    retrieve_top_chunks q_embed E top_k =
      (dedupByKey (sortedSimilarities q_embed E) []).take top_k
    ∧ (retrieve_top_chunks q_embed E top_k).Pairwise (fun a b => b.1 ≤ a.1)
    ∧ ((retrieve_top_chunks q_embed E top_k).map (fun p => p.2.node_id)).Nodup
    ∧ ∀ p ∈ retrieve_top_chunks q_embed E top_k,
        p.1 ∈ simsOf q_embed E p.2.node_id
        ∧ ∀ s ∈ simsOf q_embed E p.2.node_id, s ≤ p.1 := by
  have hretr : retrieve_top_chunks q_embed E top_k =
      (dedupByKey (sortedSimilarities q_embed E) []).take top_k := by
    unfold retrieve_top_chunks
    rw [topLoop_eq_take _ _ _ _ (by simpa using hk)]
    simp
  have hsorted : (sortedSimilarities q_embed E).Pairwise (fun a b => b.1 ≤ a.1) := by
    have hs := List.sorted_mergeSort simLE_trans simLE_total (similaritiesOf q_embed E)
    exact hs.imp (fun h => of_decide_eq_true h)
  have hsubl : List.Sublist (retrieve_top_chunks q_embed E top_k)
      (sortedSimilarities q_embed E) := by
    rw [hretr]
    exact (List.take_sublist _ _).trans (dedupByKey_sublist _ _)
  refine ⟨hretr, hsorted.sublist hsubl, ?_, ?_⟩
  · rw [hretr]
    have hnd := dedupByKey_ids_nodup (sortedSimilarities q_embed E) []
    exact hnd.sublist ((List.take_sublist _ _).map _)
  · intro p hp
    have hpd : p ∈ dedupByKey (sortedSimilarities q_embed E) [] := by
      rw [hretr] at hp
      exact (List.take_sublist _ _).subset hp
    obtain ⟨l1, l2, hsplit, hne⟩ := dedupByKey_first_occurrence hpd
    have hpsort : p ∈ sortedSimilarities q_embed E := by
      rw [hsplit]
      exact List.mem_append_right _ (List.mem_cons_self _ _)
    have hpsim : p ∈ similaritiesOf q_embed E := by
      unfold sortedSimilarities at hpsort
      exact List.mem_mergeSort.mp hpsort
    constructor
    · rw [simsOf_eq]
      exact List.mem_map_of_mem _ (List.mem_filter.mpr ⟨hpsim, by simp⟩)
    · intro s hs
      rw [simsOf_eq] at hs
      obtain ⟨e, he, rfl⟩ := List.mem_map.mp hs
      have hef := List.mem_filter.mp he
      have heid : e.2.node_id = p.2.node_id := by simpa using hef.2
      have hesort : e ∈ sortedSimilarities q_embed E := by
        unfold sortedSimilarities
        exact List.mem_mergeSort.mpr hef.1
      rw [hsplit] at hesort
      rcases List.mem_append.mp hesort with h1 | h2
      · exact absurd heid (hne e h1)
      · rcases List.mem_cons.mp h2 with rfl | h3
        · exact le_refl _
        · have hps : (p :: l2).Pairwise (fun a b => b.1 ≤ a.1) := by
            have hsub2 : List.Sublist (p :: l2) (sortedSimilarities q_embed E) := by
              rw [hsplit]
              exact List.sublist_append_right _ _
            exact hsorted.sublist hsub2
          exact (List.pairwise_cons.mp hps).1 e h3

/-- C9 counterexample: with `top_k = 0` and a nonempty pool the loop breaks
only after appending, so one candidate is returned instead of the first
zero unique ids. -/
theorem C9_counterexample :
    (retrieve_top_chunks [(1:ℝ), 0] [([(1:ℝ), 0], ⟨"A", "tA", 1⟩)] 0).map
        (fun p => p.2.node_id) = ["A"]
    ∧ (["A"] : List String) ≠ [] := by
  constructor
  · unfold retrieve_top_chunks sortedSimilarities similaritiesOf
    simp [topLoop]
  · simp

/-- Witness for the amended C9 at `top_k = 1` on a one-vector pool. -/
theorem C9_amended_top_chunks_witness :
    (1 ≤ 1)
    ∧ (retrieve_top_chunks [(1:ℝ), 0] [([(1:ℝ), 0], (⟨"A", "tA", 1⟩ : Node))] 1 =
        (dedupByKey (sortedSimilarities [(1:ℝ), 0]
          [([(1:ℝ), 0], (⟨"A", "tA", 1⟩ : Node))]) []).take 1
      ∧ (retrieve_top_chunks [(1:ℝ), 0]
          [([(1:ℝ), 0], (⟨"A", "tA", 1⟩ : Node))] 1).Pairwise (fun a b => b.1 ≤ a.1)
      ∧ ((retrieve_top_chunks [(1:ℝ), 0]
          [([(1:ℝ), 0], (⟨"A", "tA", 1⟩ : Node))] 1).map
            (fun p => p.2.node_id)).Nodup
      ∧ ∀ p ∈ retrieve_top_chunks [(1:ℝ), 0]
          [([(1:ℝ), 0], (⟨"A", "tA", 1⟩ : Node))] 1,
          p.1 ∈ simsOf [(1:ℝ), 0] [([(1:ℝ), 0], (⟨"A", "tA", 1⟩ : Node))] p.2.node_id
          ∧ ∀ s ∈ simsOf [(1:ℝ), 0]
              [([(1:ℝ), 0], (⟨"A", "tA", 1⟩ : Node))] p.2.node_id, s ≤ p.1) :=
  ⟨by norm_num,
   C9_amended_top_chunks [(1:ℝ), 0] [([(1:ℝ), 0], (⟨"A", "tA", 1⟩ : Node))] 1
     (by norm_num)⟩
